import Mathlib

/-!
# AirCoin: the transfer handler `POST /api/send`

A shallow embedding of the ledger part of `server.js` and `models/User.js`.

* The `users` collection is a list of `User` documents; the only access path
  the handler uses is `User.findOne({ userid })`, modelled by `Store.findOne`,
  and `doc.save()`, modelled by `Store.save`.
* The `transactions` collection is an append-only list.
* Balances and amounts are rationals: the exact values of the doubles that
  the program holds. The handler is given in two layers. In the exact layer
  (`toFixed8`, `sendHandler`, `send`) the sum and the difference are exact and
  `Number(x.toFixed(8))` is the rounding to 8 fractional decimal digits, ties
  away from zero; it decides which branch a request takes, what it answers
  and what it logs. In the double layer (`toDouble`, `sendHandler64`,
  `send64`) `+`, `-` and `Number(...)` round to the nearest double as the
  program does; it decides which balances are written. `send64_answer_and_log`
  relates the two.
* The request body carries `toUserId` (absent or a string) and `amount`
  (absent or a number); the authenticated `userid` comes from the verified
  token.
-/

namespace Aircoin

/-! ## Data model -/

/-- A document of the `User` collection (`models/User.js`). -/
structure User where
  name : String
  userid : String
  passwordHash : String
  balance : ℚ
  isAdmin : Bool
  deriving DecidableEq

/-- Modelled from the spec: `models/Transaction.js` is not among the sources;
a transaction document carries `fromUserId`, `toUserId` and `amount`, the
three fields the handler passes to `new Transaction({...})`. The timestamp
that the database assigns is left out. -/
structure Transaction where
  fromUserId : String
  toUserId : String
  amount : ℚ
  deriving DecidableEq

/-- The database: the two collections. -/
structure Store where
  users : List User
  txs : List Transaction

/-- The JSON body of `POST /api/send`: `const { toUserId, amount } = req.body`,
with `toUserId` absent or a string and `amount` absent or a finite number, as
the spec types them. Other JSON values in these fields are outside the
model. -/
structure SendBody where
  toUserId : Option String
  amount : Option ℚ

/-- What the handler answers: `res.json({ ok: true, tx })`, or
`res.status(code).json({ error })`, or an uncaught `TypeError` (reading a field
of a `null` document). -/
inductive Response where
  | ok (tx : Transaction)
  | error (status : Nat) (error : String)
  | typeError
  deriving DecidableEq

/-! ## Rounding -/

/-- The decimal that `x.toFixed(8)` prints, as an exact value: the multiple of
`10⁻⁸` nearest to `x`, a tie going away from zero (`toFixed` rounds the
absolute value, taking the larger candidate on a tie, and puts the sign back).
From `10²¹` on `toFixed` prints the number itself; a double of that size is an
integer, which this rounding leaves as it is too. In the exact layer it stands
for the whole of `Number(x.toFixed(8))`; in the double layer `toDouble` reads
the decimal back. -/
def toFixed8 (x : ℚ) : ℚ :=
  if x < 0 then -((⌊(-x) * 10 ^ 8 + 1 / 2⌋ : ℤ) : ℚ) / 10 ^ 8
  else ((⌊x * 10 ^ 8 + 1 / 2⌋ : ℤ) : ℚ) / 10 ^ 8

/-- A balance with at most 8 fractional decimal digits. -/
def OnGrid (x : ℚ) : Prop := ∃ n : ℤ, x = (n : ℚ) / 10 ^ 8

/-! ## Store operations -/

/-- The query `User.findOne({ userid })`: the first document with that
`userid`. -/
def Store.findOne (s : Store) (userid : String) : Option User :=
  s.users.find? (fun u => u.userid == userid)

/-- The call `doc.save()` after `doc.balance = ...`: the stored document of that user
(`userid` is a unique key of the collection) takes the new balance; the other
fields were not modified. -/
def Store.save (s : Store) (doc : User) : Store :=
  { users := s.users.map fun u =>
      if u.userid = doc.userid then { u with balance := doc.balance } else u
    txs := s.txs }

/-- The call `new Transaction({...}).save()`: one more document in the log. -/
def Store.saveTx (s : Store) (tx : Transaction) : Store :=
  { users := s.users
    txs := s.txs ++ [tx] }

/-- The stored balance of the account `userid`, when there is one. -/
def Store.balanceOf (s : Store) (userid : String) : Option ℚ :=
  (s.findOne userid).map User.balance

/-! ## The request handlers -/

/-- The middleware `authMiddleware`, past the verification of the token:
`req.user` is the account of the token's `userid`, or the request ends with
401. -/
def authMiddleware (s : Store) (userid : String) : Except Response User :=
  match s.findOne userid with
  | none => .error (.error 401 "Invalid token user")
  | some u => .ok u

/-- The credit half of the handler (`server.js`, lines 122-129), exact layer:
credit the receiver document, save it, log the transaction, answer `ok`. The
sum is exact here; `creditAndLog64` has the double sum. -/
def creditAndLog (s : Store) (sender receiver : User) (amount : ℚ) : Store × Response :=
  let receiver := { receiver with balance := toFixed8 (receiver.balance + amount) }
  let s := s.save receiver
  let tx : Transaction :=
    { fromUserId := sender.userid, toUserId := receiver.userid, amount := amount }
  (s.saveTx tx, .ok tx)

/-- The body of `app.post('/api/send', ...)` (`server.js`, lines 107-130) for
the authenticated `reqUser`, exact layer. The difference is exact here;
`sendHandler64` has the double difference. -/
def sendHandler (s : Store) (reqUser : User) (body : SendBody) : Store × Response :=
  let sender := s.findOne reqUser.userid
  match body.toUserId, body.amount with
  | some toUserId, some amount =>
    if toUserId = "" ∨ amount = 0 ∨ amount ≤ 0 then
      (s, .error 400 "Invalid to/amount")
    else
      match s.findOne toUserId with
      | none => (s, .error 400 "Receiver not found")
      | some receiver =>
        match sender with
        | none => (s, .typeError)
        | some sender =>
          if sender.isAdmin then
            creditAndLog s sender receiver amount
          else if sender.balance < amount then
            (s, .error 400 "Insufficient funds")
          else
            let sender := { sender with balance := toFixed8 (sender.balance - amount) }
            creditAndLog (s.save sender) sender receiver amount
  | _, _ => (s, .error 400 "Invalid to/amount")

/-- The route `POST /api/send`: `authMiddleware`, then the handler. -/
def send (s : Store) (userid : String) (body : SendBody) : Store × Response :=
  match authMiddleware s userid with
  | .error r => (s, r)
  | .ok reqUser => sendHandler s reqUser body

/-- A request to the route: who sends (the token's `userid`) and the body. -/
structure Request where
  userid : String
  body : SendBody

/-- Requests served one at a time, in order: the final store and the
responses. -/
def sendAll : Store → List Request → Store × List Response
  | s, [] => (s, [])
  | s, r :: rs =>
    let (s1, resp) := send s r.userid r.body
    let (s2, resps) := sendAll s1 rs
    (s2, resp :: resps)

/-- The balance invariant of the data model, on the accounts as the handler
looks them up: every non-treasury account has a balance `≥ 0`. -/
def NonNegBalances (s : Store) : Prop :=
  ∀ id u, s.findOne id = some u → u.isAdmin = false → 0 ≤ u.balance

/-- The requests by which the account `uid` sends, in order, the amounts
`p.2` to the receivers `p.1`. -/
def transfersFrom (uid : String) (ps : List (String × ℚ)) : List Request :=
  ps.map fun p => ⟨uid, ⟨some p.1, some p.2⟩⟩

/-! ## Double precision

The program's numbers are IEEE 754 binary64 values. A finite double is
represented by its exact rational value; `Infinity` and `NaN` have no
representative, so a statement about a sum carries the hypothesis that it
rounds to a finite double (`Finite64`). -/

/-- Rounding to the nearest integer, a tie going to the even one. -/
def roundHalfEven (x : ℚ) : ℤ :=
  if x - ⌊x⌋ < 1 / 2 then ⌊x⌋
  else if 1 / 2 < x - ⌊x⌋ then ⌊x⌋ + 1
  else if ⌊x⌋ % 2 = 0 then ⌊x⌋ else ⌊x⌋ + 1

/-- The spacing of the doubles around `x`: `2 ^ (e - 52)`, with `e` the binary
exponent of `x` (`2 ^ e ≤ |x| < 2 ^ (e + 1)`), and `e = -1022` in the
subnormal range. -/
def quantum (x : ℚ) : ℚ := 2 ^ (max (Int.log 2 |x|) (-1022) - 52)

/-- The double nearest to `x`, a tie going to the even significand: the result
of a double operation whose exact result is `x`, and of `Number(...)` on the
decimal `x`. -/
def toDouble (x : ℚ) : ℚ := (roundHalfEven (x / quantum x) : ℚ) * quantum x

/-- A value that rounds to a finite double: below the largest double plus half
a spacing. -/
def Finite64 (x : ℚ) : Prop := |x| < 2 ^ 1024 - 2 ^ 970

/-- The credit half of the handler (`server.js`, lines 122-129) in double
precision: `Number((receiver.balance + amount).toFixed(8))` adds two doubles,
prints the sum with 8 fractional digits and reads the decimal back. -/
def creditAndLog64 (s : Store) (sender receiver : User) (amount : ℚ) : Store × Response :=
  let receiver :=
    { receiver with balance := toDouble (toFixed8 (toDouble (receiver.balance + amount))) }
  let s := s.save receiver
  let tx : Transaction :=
    { fromUserId := sender.userid, toUserId := receiver.userid, amount := amount }
  (s.saveTx tx, .ok tx)

/-- The body of `app.post('/api/send', ...)` (`server.js`, lines 107-130) in
double precision. -/
def sendHandler64 (s : Store) (reqUser : User) (body : SendBody) : Store × Response :=
  let sender := s.findOne reqUser.userid
  match body.toUserId, body.amount with
  | some toUserId, some amount =>
    if toUserId = "" ∨ amount = 0 ∨ amount ≤ 0 then
      (s, .error 400 "Invalid to/amount")
    else
      match s.findOne toUserId with
      | none => (s, .error 400 "Receiver not found")
      | some receiver =>
        match sender with
        | none => (s, .typeError)
        | some sender =>
          if sender.isAdmin then
            creditAndLog64 s sender receiver amount
          else if sender.balance < amount then
            (s, .error 400 "Insufficient funds")
          else
            let sender :=
              { sender with balance := toDouble (toFixed8 (toDouble (sender.balance - amount))) }
            creditAndLog64 (s.save sender) sender receiver amount
  | _, _ => (s, .error 400 "Invalid to/amount")

/-- The route `POST /api/send` in double precision. -/
def send64 (s : Store) (userid : String) (body : SendBody) : Store × Response :=
  match authMiddleware s userid with
  | .error r => (s, r)
  | .ok reqUser => sendHandler64 s reqUser body

/-! ## The handler between its `await`s

Every database call of the route is awaited, and another request may run
while a call is pending. A request in progress is a `Task`: where it stands
and the documents it holds in memory. One `step` is one database call together
with the synchronous code that follows it, up to the next call. -/

/-- Where a request stands. -/
inductive Task where
  /-- The middleware is about to look up the token's user (line 45). -/
  | start
  /-- The handler is about to look up the sender (line 109). -/
  | authed (reqUser : User)
  /-- Validation passed; about to look up the receiver (line 112). -/
  | gotSender (sender : Option User) (toUserId : String) (amount : ℚ)
  /-- The debited sender document is about to be saved (line 119). -/
  | savingSender (sender receiver : User) (amount : ℚ)
  /-- The credited receiver document is about to be saved (line 124). -/
  | savingReceiver (sender receiver : User) (amount : ℚ)
  /-- The transaction is about to be saved (line 127). -/
  | savingTx (tx : Transaction)
  /-- The request has been answered. -/
  | done (r : Response)
  deriving DecidableEq

/-- One database call of the request `(userid, body)` and the code after it. -/
def step (userid : String) (body : SendBody) (s : Store) : Task → Store × Task
  | .start =>
    match s.findOne userid with
    | none => (s, .done (.error 401 "Invalid token user"))
    | some u => (s, .authed u)
  | .authed reqUser =>
    let sender := s.findOne reqUser.userid
    match body.toUserId, body.amount with
    | some toUserId, some amount =>
      if toUserId = "" ∨ amount = 0 ∨ amount ≤ 0 then
        (s, .done (.error 400 "Invalid to/amount"))
      else (s, .gotSender sender toUserId amount)
    | _, _ => (s, .done (.error 400 "Invalid to/amount"))
  | .gotSender sender toUserId amount =>
    match s.findOne toUserId with
    | none => (s, .done (.error 400 "Receiver not found"))
    | some receiver =>
      match sender with
      | none => (s, .done .typeError)
      | some sender =>
        if sender.isAdmin then
          (s, .savingReceiver sender
            { receiver with balance := toFixed8 (receiver.balance + amount) } amount)
        else if sender.balance < amount then
          (s, .done (.error 400 "Insufficient funds"))
        else
          (s, .savingSender
            { sender with balance := toFixed8 (sender.balance - amount) } receiver amount)
  | .savingSender sender receiver amount =>
    (s.save sender, .savingReceiver sender
      { receiver with balance := toFixed8 (receiver.balance + amount) } amount)
  | .savingReceiver sender receiver amount =>
    (s.save receiver, .savingTx
      { fromUserId := sender.userid, toUserId := receiver.userid, amount := amount })
  | .savingTx tx => (s.saveTx tx, .done (.ok tx))
  | .done r => (s, .done r)

/-- Two requests in progress on one store. -/
structure Pair where
  store : Store
  first : Task
  second : Task

/-- A schedule says, call by call, which of the two requests runs next:
`false` the first, `true` the second. -/
def runPair (r1 r2 : Request) : List Bool → Pair → Pair
  | [], c => c
  | false :: sched, c =>
    let (s, t) := step r1.userid r1.body c.store c.first
    runPair r1 r2 sched { store := s, first := t, second := c.second }
  | true :: sched, c =>
    let (s, t) := step r2.userid r2.body c.store c.second
    runPair r1 r2 sched { store := s, first := c.first, second := t }

/-- The schedule that runs the first request to its answer (at most six
database calls) and only then the second. -/
def serialSchedule : List Bool :=
  List.replicate 6 false ++ List.replicate 6 true

/-- The schedule that alternates between the two requests, call by call. -/
def alternatingSchedule : List Bool :=
  [false, true, false, true, false, true, false, true, false, true, false, true]

/-! ## A small ledger for concrete runs -/

/-- An ordinary account as signup creates it: balance 100. -/
def alice : User :=
  { name := "Alice", userid := "alice", passwordHash := "$2b$10$a", balance := 100, isAdmin := false }

/-- A second ordinary account. -/
def bob : User :=
  { name := "Bob", userid := "bob", passwordHash := "$2b$10$b", balance := 100, isAdmin := false }

/-- A treasury account as signup creates it: admin flag, stored balance 0. -/
def bank : User :=
  { name := "Bank", userid := "bank", passwordHash := "$2b$10$c", balance := 0, isAdmin := true }

/-- Three accounts and an empty log. -/
def demoStore : Store :=
  { users := [alice, bob, bank]
    txs := [] }

/-- Alice sends 60 to Bob. -/
def aliceSends60 : Request :=
  { userid := "alice", body := { toUserId := some "bob", amount := some 60 } }

/-- An ordinary account that a treasury has sent `2 ^ 53 = 9007199254740992`
coins. -/
def whale : User :=
  { name := "Whale", userid := "whale", passwordHash := "$2b$10$d", balance := 2 ^ 53,
    isAdmin := false }

/-- Alice, the whale and the treasury; an empty log. -/
def mintedStore : Store :=
  { users := [alice, whale, bank]
    txs := [] }

/-- The double `4.999998430494088e-9`, that is `0x1.5798e7118461dp-28`. -/
def tinyAmount : ℚ := 6044627200656925 / 2 ^ 80

/-! ## Rounding: the facts the ledger relies on -/

/-- On a negative value `toFixed8` rounds the absolute value. -/
theorem toFixed8_of_neg {x : ℚ} (h : x < 0) :
    toFixed8 x = -((⌊(-x) * 10 ^ 8 + 1 / 2⌋ : ℤ) : ℚ) / 10 ^ 8 := by
  simp [toFixed8, h]

/-- On a value that is not negative `toFixed8` is rounding half up. -/
theorem toFixed8_of_nonneg {x : ℚ} (h : 0 ≤ x) :
    toFixed8 x = ((⌊x * 10 ^ 8 + 1 / 2⌋ : ℤ) : ℚ) / 10 ^ 8 := by
  simp [toFixed8, not_lt.mpr h]

/-- Rounding moves a value by at most half a unit of the last digit. -/
theorem abs_toFixed8_sub_le (x : ℚ) : |toFixed8 x - x| ≤ 1 / (2 * 10 ^ 8) := by
  rw [abs_le]
  by_cases h : x < 0
  · rw [toFixed8_of_neg h]
    have h1 := Int.floor_le ((-x) * 10 ^ 8 + 1 / 2)
    have h2 := Int.lt_floor_add_one ((-x) * 10 ^ 8 + 1 / 2)
    generalize (⌊(-x) * 10 ^ 8 + 1 / 2⌋ : ℤ) = n at h1 h2
    constructor
    · rw [le_sub_iff_add_le, le_div_iff₀ (by norm_num)]
      linarith
    · rw [sub_le_iff_le_add, div_le_iff₀ (by norm_num)]
      linarith
  · rw [toFixed8_of_nonneg (not_lt.mp h)]
    have h1 := Int.floor_le (x * 10 ^ 8 + 1 / 2)
    have h2 := Int.lt_floor_add_one (x * 10 ^ 8 + 1 / 2)
    generalize (⌊x * 10 ^ 8 + 1 / 2⌋ : ℤ) = n at h1 h2
    constructor
    · rw [le_sub_iff_add_le, le_div_iff₀ (by norm_num)]
      linarith
    · rw [sub_le_iff_le_add, div_le_iff₀ (by norm_num)]
      linarith

/-- Rounding a value that is not negative gives a value that is not negative. -/
theorem toFixed8_nonneg {x : ℚ} (h : 0 ≤ x) : 0 ≤ toFixed8 x := by
  rw [toFixed8_of_nonneg h]
  apply div_nonneg _ (by norm_num)
  have : (0 : ℤ) ≤ ⌊x * 10 ^ 8 + 1 / 2⌋ := Int.floor_nonneg.mpr (by positivity)
  exact_mod_cast this

/-- A rounded value has at most 8 fractional digits. -/
theorem onGrid_toFixed8 (x : ℚ) : OnGrid (toFixed8 x) := by
  by_cases h : x < 0
  · exact ⟨-⌊(-x) * 10 ^ 8 + 1 / 2⌋, by rw [toFixed8_of_neg h]; push_cast; ring⟩
  · exact ⟨⌊x * 10 ^ 8 + 1 / 2⌋, by rw [toFixed8_of_nonneg (not_lt.mp h)]⟩

/-- Rounding never goes below a grid value that the argument is above. -/
theorem le_toFixed8_of_onGrid {t x : ℚ} (ht : OnGrid t) (h : t ≤ x) : t ≤ toFixed8 x := by
  obtain ⟨n, rfl⟩ := ht
  have hx : (n : ℚ) ≤ x * 10 ^ 8 := by
    rw [div_le_iff₀ (by norm_num)] at h
    exact h
  by_cases hneg : x < 0
  · rw [toFixed8_of_neg hneg, neg_div, le_neg, ← neg_div]
    apply div_le_div_of_nonneg_right _ (by norm_num)
    have : ⌊(-x) * 10 ^ 8 + 1 / 2⌋ ≤ -n := by
      rw [← Int.lt_add_one_iff, Int.floor_lt]
      push_cast
      linarith
    exact_mod_cast this
  · rw [toFixed8_of_nonneg (not_lt.mp hneg)]
    apply div_le_div_of_nonneg_right _ (by norm_num)
    have : n ≤ ⌊x * 10 ^ 8 + 1 / 2⌋ := by
      rw [Int.le_floor]
      linarith
    exact_mod_cast this

/-! ## Store operations: lookup after a write -/

theorem findOne_userid {s : Store} {id : String} {u : User}
    (h : s.findOne id = some u) : u.userid = id := by
  have := List.find?_some h
  simpa using this

theorem findOne_save (s : Store) (doc : User) (id : String) :
    (s.save doc).findOne id =
      if id = doc.userid then
        (s.findOne id).map fun u => { u with balance := doc.balance }
      else s.findOne id := by
  unfold Store.findOne Store.save
  simp only [List.find?_map]
  have hp : ((fun u : User => u.userid == id) ∘ fun u : User =>
      if u.userid = doc.userid then { u with balance := doc.balance } else u) =
      fun u : User => u.userid == id := by
    funext u
    by_cases hu : u.userid = doc.userid <;> simp [hu]
  rw [hp]
  cases hf : s.users.find? (fun u => u.userid == id) with
  | none => simp
  | some u =>
    have hu : u.userid = id := by simpa using List.find?_some hf
    by_cases hd : id = doc.userid
    · simp [hd, hu ▸ hd]
    · simp [hd, hu ▸ hd]

@[simp]
theorem findOne_saveTx (s : Store) (tx : Transaction) (id : String) :
    (s.saveTx tx).findOne id = s.findOne id := rfl

@[simp]
theorem txs_save (s : Store) (doc : User) : (s.save doc).txs = s.txs := rfl

@[simp]
theorem txs_saveTx (s : Store) (tx : Transaction) :
    (s.saveTx tx).txs = s.txs ++ [tx] := rfl

/-! ## The handler on a request that passes validation -/

/-- A request that passes the input validation and names an existing receiver
reaches the funds check. -/
theorem send_of_valid {s : Store} {uid rid : String} {a : ℚ} {sender receiver : User}
    (hs : s.findOne uid = some sender) (hr : s.findOne rid = some receiver)
    (hrid : rid ≠ "") (ha : 0 < a) :
    send s uid ⟨some rid, some a⟩ =
      if sender.isAdmin then creditAndLog s sender receiver a
      else if sender.balance < a then (s, .error 400 "Insufficient funds")
      else creditAndLog (s.save { sender with balance := toFixed8 (sender.balance - a) })
        { sender with balance := toFixed8 (sender.balance - a) } receiver a := by
  have hu := findOne_userid hs
  have h1 : ¬ (rid = "" ∨ a = 0 ∨ a ≤ 0) := by
    rintro (h | h | h)
    · exact hrid h
    · exact ha.ne (h.symm)
    · exact absurd ha (not_lt.mpr h)
  simp only [send, authMiddleware, hs, sendHandler, hu, hr, h1, if_false]

/-- The lookup of an account after `creditAndLog`. -/
theorem findOne_creditAndLog (s : Store) (sender receiver : User) (a : ℚ) (id : String) :
    (creditAndLog s sender receiver a).1.findOne id =
      if id = receiver.userid then
        (s.findOne id).map fun u => { u with balance := toFixed8 (receiver.balance + a) }
      else s.findOne id := by
  simp only [creditAndLog, findOne_saveTx, findOne_save]

/-- The log after `creditAndLog`. -/
theorem txs_creditAndLog (s : Store) (sender receiver : User) (a : ℚ) :
    (creditAndLog s sender receiver a).1.txs =
      s.txs ++ [⟨sender.userid, receiver.userid, a⟩] := by
  simp only [creditAndLog, txs_saveTx, txs_save]

/-- The answer of `creditAndLog`. -/
theorem resp_creditAndLog (s : Store) (sender receiver : User) (a : ℚ) :
    (creditAndLog s sender receiver a).2 = .ok ⟨sender.userid, receiver.userid, a⟩ := rfl

/-- What a successful answer tells about the request and the store. -/
theorem send_ok_inv {s : Store} {uid : String} {body : SendBody} {tx : Transaction}
    (hok : (send s uid body).2 = .ok tx) :
    ∃ rid a sender receiver, body = ⟨some rid, some a⟩ ∧ rid ≠ "" ∧ 0 < a ∧
      s.findOne uid = some sender ∧ s.findOne rid = some receiver ∧
      (sender.isAdmin = false → a ≤ sender.balance) ∧ tx = ⟨uid, rid, a⟩ := by
  cases hs : s.findOne uid with
  | none => simp [send, authMiddleware, hs] at hok
  | some sender =>
    obtain ⟨_ | rid, _ | a⟩ := body
    · simp [send, authMiddleware, hs, sendHandler] at hok
    · simp [send, authMiddleware, hs, sendHandler] at hok
    · simp [send, authMiddleware, hs, sendHandler] at hok
    · by_cases hv : rid = "" ∨ a = 0 ∨ a ≤ 0
      · simp [send, authMiddleware, hs, sendHandler, hv] at hok
      · have hrid : rid ≠ "" := fun h => hv (Or.inl h)
        have ha : 0 < a := not_le.mp fun h => hv (Or.inr (Or.inr h))
        cases hr : s.findOne rid with
        | none => simp [send, authMiddleware, hs, sendHandler, hv, hr] at hok
        | some receiver =>
          rw [send_of_valid hs hr hrid ha] at hok
          refine ⟨rid, a, sender, receiver, rfl, hrid, ha, rfl, hr, ?_, ?_⟩
          · intro hna
            by_contra hlt
            simp [hna, not_le.mp hlt] at hok
          · have hsu := findOne_userid hs
            have hru := findOne_userid hr
            by_cases hadm : sender.isAdmin = true
            · simp only [hadm, if_true, resp_creditAndLog, Response.ok.injEq] at hok
              rw [← hok, hsu, hru]
            · by_cases hlt : sender.balance < a
              · simp [hadm, hlt] at hok
              · have hf : sender.isAdmin = false := by simpa using hadm
                simp only [hf, hlt, if_false, Bool.false_eq_true, resp_creditAndLog,
                  Response.ok.injEq] at hok
                rw [← hok, hsu, hru]

/-- A request that is not answered `ok` leaves the store as it was. -/
theorem send_store_of_not_ok {s : Store} {uid : String} {body : SendBody}
    (h : ∀ tx, (send s uid body).2 ≠ .ok tx) : (send s uid body).1 = s := by
  cases hs : s.findOne uid with
  | none => simp [send, authMiddleware, hs]
  | some sender =>
    obtain ⟨_ | rid, _ | a⟩ := body
    · simp [send, authMiddleware, hs, sendHandler]
    · simp [send, authMiddleware, hs, sendHandler]
    · simp [send, authMiddleware, hs, sendHandler]
    · by_cases hv : rid = "" ∨ a = 0 ∨ a ≤ 0
      · simp [send, authMiddleware, hs, sendHandler, hv]
      · have hrid : rid ≠ "" := fun h => hv (Or.inl h)
        have ha : 0 < a := not_le.mp fun h => hv (Or.inr (Or.inr h))
        cases hr : s.findOne rid with
        | none => simp [send, authMiddleware, hs, sendHandler, hv, hr]
        | some receiver =>
          rw [send_of_valid hs hr hrid ha] at h ⊢
          by_cases hadm : sender.isAdmin = true
          · simp only [hadm, if_true, resp_creditAndLog] at h
            exact absurd rfl (h _)
          · by_cases hlt : sender.balance < a
            · simp [hadm, hlt]
            · have hf : sender.isAdmin = false := by simpa using hadm
              simp only [hf, hlt, if_false, Bool.false_eq_true, resp_creditAndLog] at h
              exact absurd rfl (h _)

/-- The log after a request that is answered `ok`: one more record. -/
theorem send_txs_of_ok {s : Store} {uid : String} {body : SendBody} {tx : Transaction}
    (hok : (send s uid body).2 = .ok tx) : (send s uid body).1.txs = s.txs ++ [tx] := by
  obtain ⟨rid, a, sender, receiver, rfl, hrid, ha, hs, hr, -, rfl⟩ := send_ok_inv hok
  obtain rfl := findOne_userid hs
  obtain rfl := findOne_userid hr
  rw [send_of_valid hs hr hrid ha] at hok ⊢
  by_cases hadm : sender.isAdmin = true
  · simp only [hadm, if_true, txs_creditAndLog]
  · have hf : sender.isAdmin = false := by simpa using hadm
    by_cases hlt : sender.balance < a
    · simp [hf, hlt] at hok
    · simp only [hf, hlt, if_false, Bool.false_eq_true, txs_creditAndLog, txs_save]

theorem sendAll_nil (s : Store) : sendAll s [] = (s, []) := rfl

theorem sendAll_cons (s : Store) (r : Request) (rs : List Request) :
    sendAll s (r :: rs) =
      ((sendAll (send s r.userid r.body).1 rs).1,
        (send s r.userid r.body).2 :: (sendAll (send s r.userid r.body).1 rs).2) := rfl

/-- One request keeps the balance invariant. -/
theorem nonNegBalances_send {s : Store} (h : NonNegBalances s) (uid : String)
    (body : SendBody) : NonNegBalances (send s uid body).1 := by
  by_cases hok : ∃ tx, (send s uid body).2 = .ok tx
  · obtain ⟨tx, hok⟩ := hok
    obtain ⟨rid, a, sender, receiver, rfl, hrid, ha, hs, hr, hle, -⟩ := send_ok_inv hok
    obtain rfl := findOne_userid hs
    obtain rfl := findOne_userid hr
    rw [send_of_valid hs hr hrid ha]
    intro id u hu hna
    by_cases hadm : sender.isAdmin = true
    · simp only [hadm, if_true, findOne_creditAndLog] at hu
      by_cases hid : id = receiver.userid
      · subst hid
        simp only [if_true, hr, Option.map_some', Option.some.injEq] at hu
        subst hu
        exact toFixed8_nonneg (add_nonneg (h _ _ hr hna) ha.le)
      · rw [if_neg hid] at hu
        exact h id u hu hna
    · have hf : sender.isAdmin = false := by simpa using hadm
      have hle' := hle hf
      simp only [hf, not_lt.mpr hle', if_false, Bool.false_eq_true, findOne_creditAndLog,
        findOne_save] at hu
      by_cases hid : id = receiver.userid
      · subst hid
        simp only [if_true, hr] at hu
        have hu' : u.isAdmin = receiver.isAdmin ∧
            u.balance = toFixed8 (receiver.balance + a) := by
          split_ifs at hu <;>
            (simp only [Option.map_some', Option.some.injEq] at hu; subst hu; exact ⟨rfl, rfl⟩)
        rw [hu'.2]
        exact toFixed8_nonneg (add_nonneg (h _ _ hr (hu'.1 ▸ hna)) ha.le)
      · rw [if_neg hid] at hu
        by_cases hid2 : id = sender.userid
        · subst hid2
          simp only [if_true, hs, Option.map_some', Option.some.injEq] at hu
          subst hu
          exact toFixed8_nonneg (sub_nonneg.mpr hle')
        · rw [if_neg hid2] at hu
          exact h id u hu hna
  · rw [send_store_of_not_ok (fun tx htx => hok ⟨tx, htx⟩)]
    exact h

/-- A treasury sender is never checked for funds. -/
theorem send_of_admin {s : Store} {uid rid : String} {a : ℚ} {sender receiver : User}
    (hs : s.findOne uid = some sender) (hr : s.findOne rid = some receiver)
    (hrid : rid ≠ "") (ha : 0 < a) (hadm : sender.isAdmin = true) :
    send s uid ⟨some rid, some a⟩ = creditAndLog s sender receiver a := by
  rw [send_of_valid hs hr hrid ha, if_pos hadm]

/-- Transfers from a treasury account, one after the other. -/
theorem sendAll_of_admin (uid : String) (ps : List (String × ℚ)) :
    ∀ (s : Store) (sender : User), s.findOne uid = some sender → sender.isAdmin = true →
      (∀ p ∈ ps, p.1 ≠ "" ∧ 0 < p.2 ∧ ∃ receiver, s.findOne p.1 = some receiver) →
      (sendAll s (transfersFrom uid ps)).2 = ps.map (fun p => .ok ⟨uid, p.1, p.2⟩) ∧
      ((∀ p ∈ ps, p.1 ≠ uid) →
        (sendAll s (transfersFrom uid ps)).1.findOne uid = some sender) ∧
      (OnGrid sender.balance →
        ∃ u, (sendAll s (transfersFrom uid ps)).1.findOne uid = some u ∧
          sender.balance ≤ u.balance) := by
  induction ps with
  | nil =>
    intro s sender hs _ _
    exact ⟨rfl, fun _ => hs, fun _ => ⟨sender, hs, le_refl _⟩⟩
  | cons p ps ih =>
    intro s sender hs hadm hps
    obtain ⟨hrid, ha, receiver, hr⟩ := hps p (List.mem_cons_self _ _)
    have hsend := send_of_admin hs hr hrid ha hadm
    have hsu := findOne_userid hs
    have hru := findOne_userid hr
    simp only [transfersFrom, List.map_cons, sendAll_cons, hsend, resp_creditAndLog, hsu, hru]
    -- the store after the first transfer
    have hdom : ∀ q ∈ ps, q.1 ≠ "" ∧ 0 < q.2 ∧
        ∃ r, (creditAndLog s sender receiver p.2).1.findOne q.1 = some r := by
      intro q hq
      obtain ⟨h1, h2, r, h3⟩ := hps q (List.mem_cons_of_mem _ hq)
      refine ⟨h1, h2, ?_⟩
      rw [findOne_creditAndLog, h3]
      split_ifs
      · exact ⟨_, rfl⟩
      · exact ⟨r, rfl⟩
    by_cases hself : p.1 = uid
    · -- the treasury credits itself
      have hrs : receiver = sender := by
        rw [hself, hs] at hr
        exact (Option.some.inj hr).symm
      have hs1 : (creditAndLog s sender receiver p.2).1.findOne uid
          = some { sender with balance := toFixed8 (sender.balance + p.2) } := by
        rw [findOne_creditAndLog, hru, if_pos hself.symm, hs, hrs]
        rfl
      obtain ⟨ih1, -, ih3⟩ := ih _ _ hs1 hadm hdom
      refine ⟨?_, ?_, ?_⟩
      · simp only [transfersFrom] at ih1
        rw [ih1]
      · intro hne
        exact absurd hself (hne p (List.mem_cons_self _ _))
      · intro hg
        obtain ⟨u, hu, hle⟩ := ih3 (onGrid_toFixed8 _)
        refine ⟨u, hu, le_trans ?_ hle⟩
        exact le_toFixed8_of_onGrid hg (le_add_of_nonneg_right ha.le)
    · have hs1 : (creditAndLog s sender receiver p.2).1.findOne uid = some sender := by
        rw [findOne_creditAndLog, hru, if_neg (Ne.symm hself), hs]
      obtain ⟨ih1, ih2, ih3⟩ := ih _ _ hs1 hadm hdom
      refine ⟨?_, ?_, ?_⟩
      · simp only [transfersFrom] at ih1
        rw [ih1]
      · intro hne
        exact ih2 fun q hq => hne q (List.mem_cons_of_mem _ hq)
      · exact ih3

/-! ## One request, call by call -/

/-- Six database calls in a row, nothing in between, are the route `send`. -/
theorem iterate_step_six (s : Store) (uid : String) (body : SendBody) :
    (fun c : Store × Task => step uid body c.1 c.2)^[6] (s, .start) =
      ((send s uid body).1, .done (send s uid body).2) := by
  simp only [Function.iterate_succ, Function.iterate_zero, Function.comp, id]
  cases hs : s.findOne uid with
  | none => simp [step, send, authMiddleware, hs]
  | some sender =>
    have hu := findOne_userid hs
    obtain ⟨_ | rid, _ | a⟩ := body
    · simp [step, send, authMiddleware, hs, sendHandler]
    · simp [step, send, authMiddleware, hs, sendHandler]
    · simp [step, send, authMiddleware, hs, sendHandler]
    · by_cases hv : rid = "" ∨ a = 0 ∨ a ≤ 0
      · simp [step, send, authMiddleware, hs, sendHandler, hv]
      · cases hr : s.findOne rid with
        | none => simp [step, send, authMiddleware, hs, sendHandler, hv, hr, hu]
        | some receiver =>
          by_cases hadm : sender.isAdmin = true
          · simp [step, send, authMiddleware, hs, sendHandler, hv, hr, hu, hadm, creditAndLog]
          · have hf : sender.isAdmin = false := by simpa using hadm
            by_cases hlt : sender.balance < a
            · simp [step, send, authMiddleware, hs, sendHandler, hv, hr, hu, hf, hlt]
            · simp [step, send, authMiddleware, hs, sendHandler, hv, hr, hu, hf, hlt,
                creditAndLog]

theorem runPair_false (r1 r2 : Request) (sched : List Bool) (c : Pair) :
    runPair r1 r2 (false :: sched) c =
      runPair r1 r2 sched
        { store := (step r1.userid r1.body c.store c.first).1
          first := (step r1.userid r1.body c.store c.first).2
          second := c.second } := rfl

theorem runPair_true (r1 r2 : Request) (sched : List Bool) (c : Pair) :
    runPair r1 r2 (true :: sched) c =
      runPair r1 r2 sched
        { store := (step r2.userid r2.body c.store c.second).1
          first := c.first
          second := (step r2.userid r2.body c.store c.second).2 } := rfl

/-- While the schedule names the first request only, the second waits. -/
theorem runPair_replicate_false (r1 r2 : Request) (n : Nat) (sched : List Bool) (c : Pair) :
    runPair r1 r2 (List.replicate n false ++ sched) c =
      runPair r1 r2 sched
        { store := ((fun c : Store × Task => step r1.userid r1.body c.1 c.2)^[n]
            (c.store, c.first)).1
          first := ((fun c : Store × Task => step r1.userid r1.body c.1 c.2)^[n]
            (c.store, c.first)).2
          second := c.second } := by
  induction n generalizing c with
  | zero => rfl
  | succ n ih =>
    rw [List.replicate_succ, List.cons_append, runPair_false, ih, Function.iterate_succ_apply]

/-- While the schedule names the second request only, the first waits. -/
theorem runPair_replicate_true (r1 r2 : Request) (n : Nat) (sched : List Bool) (c : Pair) :
    runPair r1 r2 (List.replicate n true ++ sched) c =
      runPair r1 r2 sched
        { store := ((fun c : Store × Task => step r2.userid r2.body c.1 c.2)^[n]
            (c.store, c.second)).1
          first := c.first
          second := ((fun c : Store × Task => step r2.userid r2.body c.1 c.2)^[n]
            (c.store, c.second)).2 } := by
  induction n generalizing c with
  | zero => rfl
  | succ n ih =>
    rw [List.replicate_succ, List.cons_append, runPair_true, ih, Function.iterate_succ_apply]

/-- The serial schedule is the two requests served one at a time. -/
theorem runPair_serialSchedule (s : Store) (r1 r2 : Request) :
    runPair r1 r2 serialSchedule { store := s, first := .start, second := .start } =
      { store := (send (send s r1.userid r1.body).1 r2.userid r2.body).1
        first := .done (send s r1.userid r1.body).2
        second := .done (send (send s r1.userid r1.body).1 r2.userid r2.body).2 } := by
  have h2 := runPair_replicate_true r1 r2 6 []
  rw [List.append_nil] at h2
  rw [serialSchedule, runPair_replicate_false, h2]
  simp only [iterate_step_six, runPair]

/-! ## Successful transfers -/

/-- The handler on a funded non-treasury sender and a different receiver. -/
theorem send_of_funded (s : Store) (uid rid : String) (a : ℚ) (sender receiver : User)
    (hs : s.findOne uid = some sender) (hr : s.findOne rid = some receiver)
    (hrid : rid ≠ "") (hne : rid ≠ uid) (hna : sender.isAdmin = false)
    (ha : 0 < a) (hle : a ≤ sender.balance) :
    (send s uid ⟨some rid, some a⟩).2 = .ok ⟨uid, rid, a⟩ ∧
    (send s uid ⟨some rid, some a⟩).1.findOne uid
      = some { sender with balance := toFixed8 (sender.balance - a) } ∧
    (send s uid ⟨some rid, some a⟩).1.findOne rid
      = some { receiver with balance := toFixed8 (receiver.balance + a) } ∧
    ∀ id, id ≠ uid → id ≠ rid →
      (send s uid ⟨some rid, some a⟩).1.findOne id = s.findOne id := by
  rw [send_of_valid hs hr hrid ha]
  obtain rfl := findOne_userid hs
  obtain rfl := findOne_userid hr
  simp only [hna, not_lt.mpr hle, if_false, Bool.false_eq_true]
  refine ⟨?_, ?_, ?_, ?_⟩
  · rw [resp_creditAndLog]
  · rw [findOne_creditAndLog, findOne_save, if_neg (Ne.symm hne), if_pos rfl, hs]
    simp [hna]
  · rw [findOne_creditAndLog, findOne_save, if_pos rfl, if_neg hne, hr]
    rfl
  · intro id h1 h2
    rw [findOne_creditAndLog, findOne_save, if_neg h2, if_neg h1]

/-! ## Rejected transfers -/

/-- C5. Invalid request: when the receiver identifier is absent or empty, or
the amount is absent or `≤ 0`, an authenticated sender is answered
400 `Invalid to/amount` and the store (balances and log) is exactly as before;
the same request sent again gets the same answer on the same store. -/
theorem send_invalid_request (s : Store) (uid : String) (body : SendBody) (sender : User)
    (hs : s.findOne uid = some sender)
    (hbad : (body.toUserId = none ∨ body.toUserId = some "") ∨
      (body.amount = none ∨ ∃ a, body.amount = some a ∧ a ≤ 0)) :
    send s uid body = (s, .error 400 "Invalid to/amount") ∧
    send (send s uid body).1 uid body = (s, .error 400 "Invalid to/amount") := by
  have h : send s uid body = (s, .error 400 "Invalid to/amount") := by
    obtain ⟨_ | rid, _ | a⟩ := body
    · simp [send, authMiddleware, hs, sendHandler]
    · simp [send, authMiddleware, hs, sendHandler]
    · simp [send, authMiddleware, hs, sendHandler]
    · have hv : rid = "" ∨ a = 0 ∨ a ≤ 0 := by
        rcases hbad with (h | h) | (h | ⟨a', h, hle⟩)
        · simp at h
        · exact Or.inl (by simpa using h)
        · simp at h
        · obtain rfl : a = a' := by simpa using h
          exact Or.inr (Or.inr hle)
      simp only [send, authMiddleware, hs, sendHandler, hv, if_true]
  rw [h]
  exact ⟨rfl, h⟩

/-- C5 at Alice asking for a transfer of -5. -/
theorem send_invalid_request_witness :
    send demoStore "alice" ⟨some "bob", some (-5)⟩
      = (demoStore, .error 400 "Invalid to/amount") ∧
    send (send demoStore "alice" ⟨some "bob", some (-5)⟩).1 "alice" ⟨some "bob", some (-5)⟩
      = (demoStore, .error 400 "Invalid to/amount") :=
  send_invalid_request demoStore "alice" ⟨some "bob", some (-5)⟩ alice rfl
    (Or.inr (Or.inr ⟨-5, rfl, by norm_num⟩))

/-- C6. Insufficient funds: a non-treasury sender with stored balance `B ≥ 0`
asking for an amount `> B` to an existing receiver is answered
400 `Insufficient funds`; the store (both balances, the log) is exactly as
before. -/
theorem send_insufficient_funds (s : Store) (uid rid : String) (a : ℚ)
    (sender receiver : User)
    (hs : s.findOne uid = some sender) (hr : s.findOne rid = some receiver)
    (hrid : rid ≠ "") (hna : sender.isAdmin = false)
    (hB : 0 ≤ sender.balance) (hgt : sender.balance < a) :
    send s uid ⟨some rid, some a⟩ = (s, .error 400 "Insufficient funds") := by
  rw [send_of_valid hs hr hrid (lt_of_le_of_lt hB hgt)]
  simp [hna, hgt]

/-- C6 at Alice, who has 100, asking for a transfer of 150. -/
theorem send_insufficient_funds_witness :
    send demoStore "alice" ⟨some "bob", some 150⟩
      = (demoStore, .error 400 "Insufficient funds") :=
  send_insufficient_funds demoStore "alice" "bob" 150 alice bob rfl rfl (by decide) rfl
    (by norm_num [alice]) (by norm_num [alice])

/-- C7. Receiver not found: for any authenticated sender (treasury or not,
whatever its balance) and any positive amount, a non-empty receiver identifier
that matches no account is answered 400 `Receiver not found`, before any funds
check, and the store is exactly as before. -/
theorem send_receiver_not_found (s : Store) (uid rid : String) (a : ℚ) (sender : User)
    (hs : s.findOne uid = some sender) (hrid : rid ≠ "") (ha : 0 < a)
    (hr : s.findOne rid = none) :
    send s uid ⟨some rid, some a⟩ = (s, .error 400 "Receiver not found") := by
  have hu := findOne_userid hs
  have h1 : ¬ (rid = "" ∨ a = 0 ∨ a ≤ 0) := by
    rintro (h | h | h)
    · exact hrid h
    · exact ha.ne (h.symm)
    · exact absurd ha (not_lt.mpr h)
  simp only [send, authMiddleware, hs, sendHandler, hu, hr, h1, if_false]

/-- C7 at Alice sending to an identifier that no account has. -/
theorem send_receiver_not_found_witness :
    send demoStore "alice" ⟨some "ghost", some 150⟩
      = (demoStore, .error 400 "Receiver not found") :=
  send_receiver_not_found demoStore "alice" "ghost" 150 alice rfl (by decide) (by norm_num) rfl

/-! ## The transaction log -/

/-- C8. Audit completeness: a request answered `ok tx` extends the log by
exactly the record `tx`, after the records already there; `tx` names the
sender's `userid`, the receiver's `userid` and the requested amount, which is
positive. A request that is not answered `ok` leaves the log as it was. -/
theorem send_audit (s : Store) (uid : String) (body : SendBody) :
    (∀ tx, (send s uid body).2 = .ok tx →
      (send s uid body).1.txs = s.txs ++ [tx] ∧
      (∃ sender, s.findOne uid = some sender ∧ tx.fromUserId = sender.userid) ∧
      (∃ receiver, body.toUserId = some receiver.userid ∧
        s.findOne receiver.userid = some receiver ∧ tx.toUserId = receiver.userid) ∧
      body.amount = some tx.amount ∧ 0 < tx.amount) ∧
    ((∀ tx, (send s uid body).2 ≠ .ok tx) → (send s uid body).1.txs = s.txs) := by
  constructor
  · intro tx hok
    refine ⟨send_txs_of_ok hok, ?_⟩
    obtain ⟨rid, a, sender, receiver, rfl, -, ha, hs, hr, -, rfl⟩ := send_ok_inv hok
    have hsu := findOne_userid hs
    have hru := findOne_userid hr
    refine ⟨⟨sender, hs, hsu.symm⟩, ⟨receiver, ?_, ?_, hru.symm⟩, rfl, ha⟩
    · rw [hru]
    · rw [hru]; exact hr
  · intro h
    rw [send_store_of_not_ok h]

/-- C8 at Alice sending 30 to Bob. -/
theorem send_audit_witness :
    (send demoStore "alice" ⟨some "bob", some 30⟩).1.txs
      = demoStore.txs ++ [⟨"alice", "bob", 30⟩] ∧
    (∃ sender, demoStore.findOne "alice" = some sender ∧ "alice" = sender.userid) ∧
    (∃ receiver, some "bob" = some receiver.userid ∧
      demoStore.findOne receiver.userid = some receiver ∧ "bob" = receiver.userid) ∧
    some (30 : ℚ) = some 30 ∧ (0 : ℚ) < 30 :=
  (send_audit demoStore "alice" ⟨some "bob", some 30⟩).1 ⟨"alice", "bob", 30⟩
    (send_of_funded demoStore "alice" "bob" 30 alice bob rfl rfl (by decide) (by decide)
      rfl (by norm_num) (by norm_num [alice])).1

/-! ## Sequences of transfers -/

/-- C2. Non-negativity: if every non-treasury account has a balance `≥ 0`,
then after any finite sequence of requests to the route, served one at a time
(each rejected or applied), every non-treasury account still has a balance
`≥ 0`. -/
theorem sendAll_nonNegBalances (s : Store) (reqs : List Request)
    (h : NonNegBalances s) : NonNegBalances (sendAll s reqs).1 := by
  induction reqs generalizing s with
  | nil => exact h
  | cons r rs ih =>
    rw [sendAll_cons]
    exact ih _ (nonNegBalances_send h r.userid r.body)

/-- C2 at five requests, two of them rejected. -/
theorem sendAll_nonNegBalances_witness :
    NonNegBalances demoStore ∧
    NonNegBalances (sendAll demoStore
      [aliceSends60, aliceSends60, ⟨"bob", ⟨some "alice", some (1 / 3)⟩⟩,
        ⟨"bank", ⟨some "bob", some 1000000⟩⟩, ⟨"bob", ⟨some "bob", some 7⟩⟩]).1 :=
  have h0 : NonNegBalances demoStore := by
    intro id u hu _
    have hmem := List.mem_of_find?_eq_some hu
    simp only [demoStore, List.mem_cons, List.mem_singleton, List.not_mem_nil, or_false] at hmem
    rcases hmem with rfl | rfl | rfl <;> norm_num [alice, bob, bank]
  ⟨h0, sendAll_nonNegBalances demoStore _ h0⟩

/-- C3. Treasury invariant: a treasury account sends, one after the other, any
positive amounts (however large) to existing receivers. Every transfer is
answered `ok` (no funds check). If no receiver is the treasury itself, its
stored document is exactly as before. In any case, a stored balance with at
most 8 fractional digits does not go down. A single transfer is the list of
one request. -/
theorem treasury_never_debited (s : Store) (uid : String) (ps : List (String × ℚ))
    (sender : User) (hs : s.findOne uid = some sender) (hadm : sender.isAdmin = true)
    (hps : ∀ p ∈ ps, p.1 ≠ "" ∧ 0 < p.2 ∧ ∃ receiver, s.findOne p.1 = some receiver) :
    (sendAll s (transfersFrom uid ps)).2 = ps.map (fun p => .ok ⟨uid, p.1, p.2⟩) ∧
    ((∀ p ∈ ps, p.1 ≠ uid) →
      (sendAll s (transfersFrom uid ps)).1.findOne uid = some sender) ∧
    (OnGrid sender.balance →
      ∃ u, (sendAll s (transfersFrom uid ps)).1.findOne uid = some u ∧
        sender.balance ≤ u.balance) :=
  sendAll_of_admin uid ps s sender hs hadm hps

/-- C3 at the bank sending to Alice, to itself and to Bob. -/
theorem treasury_never_debited_witness :
    OnGrid bank.balance ∧
    (sendAll demoStore
        (transfersFrom "bank" [("alice", 1000000), ("bank", 5), ("bob", 1 / 3)])).2
      = [("alice", (1000000 : ℚ)), ("bank", 5), ("bob", 1 / 3)].map
          (fun p => .ok ⟨"bank", p.1, p.2⟩) ∧
    ((∀ p ∈ [("alice", (1000000 : ℚ)), ("bank", 5), ("bob", 1 / 3)], p.1 ≠ "bank") →
      (sendAll demoStore
        (transfersFrom "bank" [("alice", 1000000), ("bank", 5), ("bob", 1 / 3)])).1.findOne
          "bank" = some bank) ∧
    (OnGrid bank.balance →
      ∃ u, (sendAll demoStore
        (transfersFrom "bank" [("alice", 1000000), ("bank", 5), ("bob", 1 / 3)])).1.findOne
          "bank" = some u ∧ bank.balance ≤ u.balance) :=
  ⟨⟨0, by norm_num [bank]⟩,
  treasury_never_debited demoStore "bank" [("alice", 1000000), ("bank", 5), ("bob", 1 / 3)]
    bank rfl rfl (by
      intro p hp
      simp only [List.mem_cons, List.mem_singleton, List.not_mem_nil, or_false] at hp
      rcases hp with rfl | rfl | rfl
      · exact ⟨by decide, by norm_num, alice, rfl⟩
      · exact ⟨by decide, by norm_num, bank, rfl⟩
      · exact ⟨by decide, by norm_num, bob, rfl⟩)⟩

/-! ## Two requests at once -/

/-- C9, as stated, fails. Alice has 100 and two requests of 60 each to Bob
run with their database calls alternating: both read the balance 100, both
pass the funds check, both are answered `ok` and both are logged, Alice ends
with 40 and Bob with 160. Served one at a time, the second request is answered
`Insufficient funds`. -/
theorem interleaved_double_spend :
    (runPair aliceSends60 aliceSends60 alternatingSchedule
        { store := demoStore, first := .start, second := .start }).first
      = .done (.ok ⟨"alice", "bob", 60⟩) ∧
    (runPair aliceSends60 aliceSends60 alternatingSchedule
        { store := demoStore, first := .start, second := .start }).second
      = .done (.ok ⟨"alice", "bob", 60⟩) ∧
    (runPair aliceSends60 aliceSends60 alternatingSchedule
        { store := demoStore, first := .start, second := .start }).store.txs
      = [⟨"alice", "bob", 60⟩, ⟨"alice", "bob", 60⟩] ∧
    (runPair aliceSends60 aliceSends60 alternatingSchedule
        { store := demoStore, first := .start, second := .start }).store.balanceOf "alice"
      = some 40 ∧
    (runPair aliceSends60 aliceSends60 alternatingSchedule
        { store := demoStore, first := .start, second := .start }).store.balanceOf "bob"
      = some 160 ∧
    (sendAll demoStore [aliceSends60, aliceSends60]).2
      = [.ok ⟨"alice", "bob", 60⟩, .error 400 "Insufficient funds"] := by
  decide!

/-- C9, amended. When the second request starts after the first has been
answered, the outcome is the two requests served one at a time; with Alice at
100 and two requests of 60 each, the first is answered `ok`, the second
`Insufficient funds`, one record is logged and Alice ends with 40. -/
theorem serial_no_double_spend :
    (∀ (s : Store) (r1 r2 : Request),
      runPair r1 r2 serialSchedule { store := s, first := .start, second := .start } =
        { store := (sendAll s [r1, r2]).1
          first := .done (send s r1.userid r1.body).2
          second := .done (send (send s r1.userid r1.body).1 r2.userid r2.body).2 }) ∧
    (sendAll demoStore [aliceSends60, aliceSends60]).2
      = [.ok ⟨"alice", "bob", 60⟩, .error 400 "Insufficient funds"] ∧
    (sendAll demoStore [aliceSends60, aliceSends60]).1.txs = [⟨"alice", "bob", 60⟩] ∧
    (sendAll demoStore [aliceSends60, aliceSends60]).1.balanceOf "alice" = some 40 ∧
    (sendAll demoStore [aliceSends60, aliceSends60]).1.balanceOf "bob" = some 160 := by
  refine ⟨fun s r1 r2 => ?_, by decide!, by decide!, by decide!, by decide!⟩
  rw [runPair_serialSchedule]
  rfl

/-! ## Double precision: rounding facts -/

theorem quantum_pos (x : ℚ) : 0 < quantum x := by
  unfold quantum
  positivity

/-- The spacing of the doubles in the binade `[2 ^ e, 2 ^ (e + 1))`. -/
theorem quantum_eq {x : ℚ} (e : ℤ) (he : -1022 ≤ e) (h1 : 2 ^ e ≤ |x|)
    (h2 : |x| < 2 ^ (e + 1)) : quantum x = 2 ^ (e - 52) := by
  have hpos : 0 < |x| := lt_of_lt_of_le (by positivity) h1
  have hlog : Int.log 2 |x| = e := by
    apply le_antisymm
    · have := (Int.lt_zpow_iff_log_lt (b := 2) (by norm_num) hpos (x := e + 1)).mp
        (by exact_mod_cast h2)
      omega
    · exact (Int.zpow_le_iff_le_log (b := 2) (by norm_num) hpos).mp (by exact_mod_cast h1)
  rw [quantum, hlog, max_eq_left he]

/-- The double nearest to a value whose binade and rounded significand are
known. -/
theorem toDouble_eq {x : ℚ} (e n : ℤ) (he : -1022 ≤ e) (h1 : 2 ^ e ≤ |x|)
    (h2 : |x| < 2 ^ (e + 1)) (hn : roundHalfEven (x / 2 ^ (e - 52)) = n) :
    toDouble x = n * 2 ^ (e - 52) := by
  rw [toDouble, quantum_eq e he h1 h2, hn]

theorem abs_roundHalfEven_sub_le (y : ℚ) : |(roundHalfEven y : ℚ) - y| ≤ 1 / 2 := by
  have h1 := Int.floor_le y
  have h2 := Int.lt_floor_add_one y
  unfold roundHalfEven
  rw [abs_le]
  split_ifs <;> push_cast <;> constructor <;> linarith

theorem toDouble_zero : toDouble 0 = 0 := by
  simp [toDouble, roundHalfEven]

/-- The rounding error of a double: a relative `2⁻⁵³`, or half the subnormal
spacing. -/
theorem abs_toDouble_sub_le (x : ℚ) : |toDouble x - x| ≤ |x| / 2 ^ 53 + 1 / 2 ^ 1075 := by
  by_cases hx : x = 0
  · subst hx
    rw [toDouble_zero]
    norm_num
  have hq := quantum_pos x
  have hr := abs_roundHalfEven_sub_le (x / quantum x)
  have h1 : |toDouble x - x| ≤ quantum x / 2 := by
    have e : toDouble x - x
        = ((roundHalfEven (x / quantum x) : ℚ) - x / quantum x) * quantum x := by
      rw [toDouble]
      field_simp
    rw [e, abs_mul, abs_of_pos hq]
    calc |(roundHalfEven (x / quantum x) : ℚ) - x / quantum x| * quantum x
        ≤ 1 / 2 * quantum x := mul_le_mul_of_nonneg_right hr hq.le
      _ = quantum x / 2 := by ring
  have hpos : 0 < |x| := abs_pos.mpr hx
  have h2 : quantum x ≤ |x| / 2 ^ 52 + 1 / 2 ^ 1074 := by
    unfold quantum
    rcases le_total (Int.log 2 |x|) (-1022) with h | h
    · rw [max_eq_right h]
      have e : (2 : ℚ) ^ ((-1022 : ℤ) - 52) = 1 / 2 ^ 1074 := by norm_num [zpow_neg]
      rw [e]
      have : 0 ≤ |x| / 2 ^ 52 := by positivity
      linarith
    · rw [max_eq_left h, zpow_sub₀ (by norm_num : (2 : ℚ) ≠ 0)]
      have hl : (2 : ℚ) ^ Int.log 2 |x| ≤ |x| := by
        have := Int.zpow_log_le_self (b := 2) (by norm_num) hpos
        exact_mod_cast this
      have e : (2 : ℚ) ^ (52 : ℤ) = 2 ^ 52 := by norm_num
      rw [e]
      have : (2 : ℚ) ^ Int.log 2 |x| / 2 ^ 52 ≤ |x| / 2 ^ 52 :=
        div_le_div_of_nonneg_right hl (by positivity)
      have : (0 : ℚ) ≤ 1 / 2 ^ 1074 := by positivity
      linarith
  have e53 : |x| / 2 ^ 53 = |x| / 2 ^ 52 / 2 := by ring
  have e1075 : (1 : ℚ) / 2 ^ 1075 = 1 / 2 ^ 1074 / 2 := by norm_num
  rw [e53, e1075]
  linarith

/-- The error of one balance update `Number((x).toFixed(8))` on the double
nearest to the exact result `x`. -/
theorem abs_stored_sub_le (x : ℚ) :
    |toDouble (toFixed8 (toDouble x)) - x|
      ≤ 1 / (2 * 10 ^ 8) + 3 / 2 ^ 53 * (|x| + 1 / (2 * 10 ^ 8)) + 3 / 2 ^ 1075 := by
  have e1 := abs_toDouble_sub_le x
  have e2 := abs_toFixed8_sub_le (toDouble x)
  have e3 := abs_toDouble_sub_le (toFixed8 (toDouble x))
  have t1 : |toDouble x| ≤ |x| + |toDouble x - x| := by
    have := abs_add x (toDouble x - x)
    simpa using this
  have t2 : |toFixed8 (toDouble x)| ≤ |toDouble x| + |toFixed8 (toDouble x) - toDouble x| := by
    have := abs_add (toDouble x) (toFixed8 (toDouble x) - toDouble x)
    simpa using this
  have t3 : |toDouble (toFixed8 (toDouble x)) - x|
      ≤ |toDouble (toFixed8 (toDouble x)) - toFixed8 (toDouble x)|
        + |toFixed8 (toDouble x) - toDouble x| + |toDouble x - x| := by
    have := abs_add_three (toDouble (toFixed8 (toDouble x)) - toFixed8 (toDouble x))
      (toFixed8 (toDouble x) - toDouble x) (toDouble x - x)
    simpa using this
  have hA := abs_nonneg x
  generalize |toDouble (toFixed8 (toDouble x)) - x| = G at t3 ⊢
  generalize |toDouble (toFixed8 (toDouble x)) - toFixed8 (toDouble x)| = E3 at e3 t3
  generalize |toFixed8 (toDouble x) - toDouble x| = E2 at e2 t2 t3
  generalize |toDouble x - x| = E1 at e1 t1 t3
  generalize |toFixed8 (toDouble x)| = Z at e3 t2
  generalize |toDouble x| = F at t1 t2
  generalize |x| = A at e1 t1 hA ⊢
  norm_num at e1 e2 e3 ⊢
  linarith

/-! ## Double precision: the handler -/

/-- In double precision too, a request that passes the input validation and
names an existing receiver reaches the funds check. -/
theorem send64_of_valid {s : Store} {uid rid : String} {a : ℚ} {sender receiver : User}
    (hs : s.findOne uid = some sender) (hr : s.findOne rid = some receiver)
    (hrid : rid ≠ "") (ha : 0 < a) :
    send64 s uid ⟨some rid, some a⟩ =
      if sender.isAdmin then creditAndLog64 s sender receiver a
      else if sender.balance < a then (s, .error 400 "Insufficient funds")
      else creditAndLog64
        (s.save { sender with balance := toDouble (toFixed8 (toDouble (sender.balance - a))) })
        { sender with balance := toDouble (toFixed8 (toDouble (sender.balance - a))) }
        receiver a := by
  have hu := findOne_userid hs
  have h1 : ¬ (rid = "" ∨ a = 0 ∨ a ≤ 0) := by
    rintro (h | h | h)
    · exact hrid h
    · exact ha.ne (h.symm)
    · exact absurd ha (not_lt.mpr h)
  simp only [send64, authMiddleware, hs, sendHandler64, hu, hr, h1, if_false]

/-- The lookup of an account after `creditAndLog64`. -/
theorem findOne_creditAndLog64 (s : Store) (sender receiver : User) (a : ℚ) (id : String) :
    (creditAndLog64 s sender receiver a).1.findOne id =
      if id = receiver.userid then
        (s.findOne id).map fun u =>
          { u with balance := toDouble (toFixed8 (toDouble (receiver.balance + a))) }
      else s.findOne id := by
  simp only [creditAndLog64, findOne_saveTx, findOne_save]

/-- The log after `creditAndLog64`. -/
theorem txs_creditAndLog64 (s : Store) (sender receiver : User) (a : ℚ) :
    (creditAndLog64 s sender receiver a).1.txs =
      s.txs ++ [⟨sender.userid, receiver.userid, a⟩] := by
  simp only [creditAndLog64, txs_saveTx, txs_save]

/-- The answer of `creditAndLog64`. -/
theorem resp_creditAndLog64 (s : Store) (sender receiver : User) (a : ℚ) :
    (creditAndLog64 s sender receiver a).2 = .ok ⟨sender.userid, receiver.userid, a⟩ := rfl

/-- What a successful answer of `send64` tells about the request and the store. -/
theorem send64_ok_inv {s : Store} {uid : String} {body : SendBody} {tx : Transaction}
    (hok : (send64 s uid body).2 = .ok tx) :
    ∃ rid a sender receiver, body = ⟨some rid, some a⟩ ∧ rid ≠ "" ∧ 0 < a ∧
      s.findOne uid = some sender ∧ s.findOne rid = some receiver ∧
      (sender.isAdmin = false → a ≤ sender.balance) ∧ tx = ⟨uid, rid, a⟩ := by
  cases hs : s.findOne uid with
  | none => simp [send64, authMiddleware, hs] at hok
  | some sender =>
    obtain ⟨_ | rid, _ | a⟩ := body
    · simp [send64, authMiddleware, hs, sendHandler64] at hok
    · simp [send64, authMiddleware, hs, sendHandler64] at hok
    · simp [send64, authMiddleware, hs, sendHandler64] at hok
    · by_cases hv : rid = "" ∨ a = 0 ∨ a ≤ 0
      · simp [send64, authMiddleware, hs, sendHandler64, hv] at hok
      · have hrid : rid ≠ "" := fun h => hv (Or.inl h)
        have ha : 0 < a := not_le.mp fun h => hv (Or.inr (Or.inr h))
        cases hr : s.findOne rid with
        | none => simp [send64, authMiddleware, hs, sendHandler64, hv, hr] at hok
        | some receiver =>
          rw [send64_of_valid hs hr hrid ha] at hok
          refine ⟨rid, a, sender, receiver, rfl, hrid, ha, rfl, hr, ?_, ?_⟩
          · intro hna
            by_contra hlt
            simp [hna, not_le.mp hlt] at hok
          · have hsu := findOne_userid hs
            have hru := findOne_userid hr
            by_cases hadm : sender.isAdmin = true
            · simp only [hadm, if_true, resp_creditAndLog64, Response.ok.injEq] at hok
              rw [← hok, hsu, hru]
            · by_cases hlt : sender.balance < a
              · simp [hadm, hlt] at hok
              · have hf : sender.isAdmin = false := by simpa using hadm
                simp only [hf, hlt, if_false, Bool.false_eq_true, resp_creditAndLog64,
                  Response.ok.injEq] at hok
                rw [← hok, hsu, hru]

/-- The double-precision handler on a funded non-treasury sender and a
different receiver. -/
theorem send64_of_funded (s : Store) (uid rid : String) (a : ℚ) (sender receiver : User)
    (hs : s.findOne uid = some sender) (hr : s.findOne rid = some receiver)
    (hrid : rid ≠ "") (hne : rid ≠ uid) (hna : sender.isAdmin = false)
    (ha : 0 < a) (hle : a ≤ sender.balance) :
    (send64 s uid ⟨some rid, some a⟩).2 = .ok ⟨uid, rid, a⟩ ∧
    (send64 s uid ⟨some rid, some a⟩).1.findOne uid
      = some { sender with balance := toDouble (toFixed8 (toDouble (sender.balance - a))) } ∧
    (send64 s uid ⟨some rid, some a⟩).1.findOne rid
      = some { receiver with balance := toDouble (toFixed8 (toDouble (receiver.balance + a))) } ∧
    ∀ id, id ≠ uid → id ≠ rid →
      (send64 s uid ⟨some rid, some a⟩).1.findOne id = s.findOne id := by
  rw [send64_of_valid hs hr hrid ha]
  obtain rfl := findOne_userid hs
  obtain rfl := findOne_userid hr
  simp only [hna, not_lt.mpr hle, if_false, Bool.false_eq_true]
  refine ⟨?_, ?_, ?_, ?_⟩
  · rw [resp_creditAndLog64]
  · rw [findOne_creditAndLog64, findOne_save, if_neg (Ne.symm hne), if_pos rfl, hs]
    simp [hna]
  · rw [findOne_creditAndLog64, findOne_save, if_pos rfl, if_neg hne, hr]
    rfl
  · intro id h1 h2
    rw [findOne_creditAndLog64, findOne_save, if_neg h2, if_neg h1]


/-- The double nearest to a value that is not negative is not negative. -/
theorem toDouble_nonneg {x : ℚ} (h : 0 ≤ x) : 0 ≤ toDouble x := by
  have hq := quantum_pos x
  have hy : 0 ≤ x / quantum x := div_nonneg h hq.le
  have hf : (0 : ℤ) ≤ ⌊x / quantum x⌋ := Int.floor_nonneg.mpr hy
  have hr : (0 : ℤ) ≤ roundHalfEven (x / quantum x) := by
    unfold roundHalfEven
    split_ifs <;> omega
  rw [toDouble]
  exact mul_nonneg (by exact_mod_cast hr) hq.le

/-- In double precision too, a request that is not answered `ok` leaves the
store as it was. -/
theorem send64_store_of_not_ok {s : Store} {uid : String} {body : SendBody}
    (h : ∀ tx, (send64 s uid body).2 ≠ .ok tx) : (send64 s uid body).1 = s := by
  cases hs : s.findOne uid with
  | none => simp [send64, authMiddleware, hs]
  | some sender =>
    obtain ⟨_ | rid, _ | a⟩ := body
    · simp [send64, authMiddleware, hs, sendHandler64]
    · simp [send64, authMiddleware, hs, sendHandler64]
    · simp [send64, authMiddleware, hs, sendHandler64]
    · by_cases hv : rid = "" ∨ a = 0 ∨ a ≤ 0
      · simp [send64, authMiddleware, hs, sendHandler64, hv]
      · have hrid : rid ≠ "" := fun h => hv (Or.inl h)
        have ha : 0 < a := not_le.mp fun h => hv (Or.inr (Or.inr h))
        cases hr : s.findOne rid with
        | none => simp [send64, authMiddleware, hs, sendHandler64, hv, hr]
        | some receiver =>
          rw [send64_of_valid hs hr hrid ha] at h ⊢
          by_cases hadm : sender.isAdmin = true
          · simp only [hadm, if_true, resp_creditAndLog64] at h
            exact absurd rfl (h _)
          · by_cases hlt : sender.balance < a
            · simp [hadm, hlt]
            · have hf : sender.isAdmin = false := by simpa using hadm
              simp only [hf, hlt, if_false, Bool.false_eq_true, resp_creditAndLog64] at h
              exact absurd rfl (h _)

/-- In double precision too, one request keeps the balance invariant: the
sender is debited only when `amount ≤ balance`, and rounding a value that is
not negative, to a double or to 8 digits, gives a value that is not negative. -/
theorem nonNegBalances_send64 {s : Store} (h : NonNegBalances s) (uid : String)
    (body : SendBody) : NonNegBalances (send64 s uid body).1 := by
  by_cases hok : ∃ tx, (send64 s uid body).2 = .ok tx
  · obtain ⟨tx, hok⟩ := hok
    obtain ⟨rid, a, sender, receiver, rfl, hrid, ha, hs, hr, hle, -⟩ := send64_ok_inv hok
    obtain rfl := findOne_userid hs
    obtain rfl := findOne_userid hr
    rw [send64_of_valid hs hr hrid ha]
    intro id u hu hna
    by_cases hadm : sender.isAdmin = true
    · simp only [hadm, if_true, findOne_creditAndLog64] at hu
      by_cases hid : id = receiver.userid
      · subst hid
        simp only [if_true, hr, Option.map_some', Option.some.injEq] at hu
        subst hu
        exact toDouble_nonneg (toFixed8_nonneg (toDouble_nonneg (add_nonneg (h _ _ hr hna) ha.le)))
      · rw [if_neg hid] at hu
        exact h id u hu hna
    · have hf : sender.isAdmin = false := by simpa using hadm
      have hle' := hle hf
      simp only [hf, not_lt.mpr hle', if_false, Bool.false_eq_true, findOne_creditAndLog64,
        findOne_save] at hu
      by_cases hid : id = receiver.userid
      · subst hid
        simp only [if_true, hr] at hu
        have hu' : u.isAdmin = receiver.isAdmin ∧
            u.balance = toDouble (toFixed8 (toDouble (receiver.balance + a))) := by
          split_ifs at hu <;>
            (simp only [Option.map_some', Option.some.injEq] at hu; subst hu; exact ⟨rfl, rfl⟩)
        rw [hu'.2]
        exact toDouble_nonneg (toFixed8_nonneg (toDouble_nonneg
          (add_nonneg (h _ _ hr (hu'.1 ▸ hna)) ha.le)))
      · rw [if_neg hid] at hu
        by_cases hid2 : id = sender.userid
        · subst hid2
          simp only [if_true, hs, Option.map_some', Option.some.injEq] at hu
          subst hu
          exact toDouble_nonneg (toFixed8_nonneg (toDouble_nonneg (sub_nonneg.mpr hle')))
        · rw [if_neg hid2] at hu
          exact h id u hu hna
  · rw [send64_store_of_not_ok (fun tx htx => hok ⟨tx, htx⟩)]
    exact h

/-- The handler on a non-treasury account that sends to itself, in double
precision: the credit is computed on the copy read before the debit. -/
theorem send64_of_self (s : Store) (uid : String) (a : ℚ) (u : User)
    (hs : s.findOne uid = some u) (hid : uid ≠ "") (hna : u.isAdmin = false)
    (ha : 0 < a) (hle : a ≤ u.balance) :
    send64 s uid ⟨some uid, some a⟩ =
      creditAndLog64 (s.save { u with balance := toDouble (toFixed8 (toDouble (u.balance - a))) })
        { u with balance := toDouble (toFixed8 (toDouble (u.balance - a))) } u a ∧
    (s.save { u with balance := toDouble (toFixed8 (toDouble (u.balance - a))) }).balanceOf uid
      = some (toDouble (toFixed8 (toDouble (u.balance - a)))) ∧
    (send64 s uid ⟨some uid, some a⟩).2 = .ok ⟨uid, uid, a⟩ ∧
    (send64 s uid ⟨some uid, some a⟩).1.txs = s.txs ++ [⟨uid, uid, a⟩] ∧
    (send64 s uid ⟨some uid, some a⟩).1.findOne uid
      = some { u with balance := toDouble (toFixed8 (toDouble (u.balance + a))) } := by
  have hsend := send64_of_valid hs hs hid ha
  simp only [hna, not_lt.mpr hle, if_false, Bool.false_eq_true] at hsend
  obtain rfl := findOne_userid hs
  refine ⟨?_, ?_, ?_, ?_, ?_⟩
  · rw [hsend]
    simp [hna]
  · simp [Store.balanceOf, findOne_save, hs]
  · rw [hsend, resp_creditAndLog64]
  · rw [hsend, txs_creditAndLog64, txs_save]
  · rw [hsend, findOne_creditAndLog64, findOne_save, if_pos rfl, if_pos rfl, hs]
    rfl

/-- The two layers take the same branch: the same answer and the same log.
They differ only in the balances they write. -/
theorem send64_answer_and_log (s : Store) (uid : String) (body : SendBody) :
    (send64 s uid body).2 = (send s uid body).2 ∧
    (send64 s uid body).1.txs = (send s uid body).1.txs := by
  cases hs : s.findOne uid with
  | none => simp [send, send64, authMiddleware, hs]
  | some sender =>
    have hu := findOne_userid hs
    obtain ⟨_ | rid, _ | a⟩ := body
    · simp [send, send64, authMiddleware, hs, sendHandler, sendHandler64]
    · simp [send, send64, authMiddleware, hs, sendHandler, sendHandler64]
    · simp [send, send64, authMiddleware, hs, sendHandler, sendHandler64]
    · by_cases hv : rid = "" ∨ a = 0 ∨ a ≤ 0
      · simp [send, send64, authMiddleware, hs, sendHandler, sendHandler64, hv]
      · cases hr : s.findOne rid with
        | none => simp [send, send64, authMiddleware, hs, sendHandler, sendHandler64, hv, hr]
        | some receiver =>
          by_cases hadm : sender.isAdmin = true
          · simp [send, send64, authMiddleware, hs, sendHandler, sendHandler64, hv, hr, hu,
              hadm, creditAndLog, creditAndLog64]
          · have hf : sender.isAdmin = false := by simpa using hadm
            by_cases hlt : sender.balance < a
            · simp [send, send64, authMiddleware, hs, sendHandler, sendHandler64, hv, hr, hu,
                hf, hlt]
            · simp [send, send64, authMiddleware, hs, sendHandler, sendHandler64, hv, hr, hu,
                hf, hlt, creditAndLog, creditAndLog64]

/-! ## Double precision: values -/

theorem toFixed8_intCast (n : ℤ) : toFixed8 (n : ℚ) = n := by
  by_cases h : (n : ℚ) < 0
  · rw [toFixed8_of_neg h]
    have e : (-(n : ℚ)) * 10 ^ 8 + 1 / 2 = ((-n * 10 ^ 8 : ℤ) : ℚ) + 1 / 2 := by
      push_cast
      ring
    have f : ⌊((-n * 10 ^ 8 : ℤ) : ℚ) + 1 / 2⌋ = -n * 10 ^ 8 := by
      rw [Int.floor_eq_iff]
      constructor <;> push_cast <;> linarith
    rw [e, f]
    push_cast
    field_simp
    norm_num
  · rw [toFixed8_of_nonneg (not_lt.mp h)]
    have e : (n : ℚ) * 10 ^ 8 + 1 / 2 = ((n * 10 ^ 8 : ℤ) : ℚ) + 1 / 2 := by
      push_cast
      ring
    have f : ⌊((n * 10 ^ 8 : ℤ) : ℚ) + 1 / 2⌋ = n * 10 ^ 8 := by
      rw [Int.floor_eq_iff]
      constructor <;> push_cast <;> linarith
    rw [e, f]
    push_cast
    field_simp
    norm_num

/-- The amount `4.999998430494088e-9` is a double. -/
theorem toDouble_tinyAmount : toDouble tinyAmount = tinyAmount := by
  rw [toDouble_eq (-28) 6044627200656925 (by norm_num)
    (by norm_num [tinyAmount, abs_of_nonneg]) (by norm_num [tinyAmount, abs_of_nonneg])
    (by norm_num [tinyAmount, roundHalfEven])]
  norm_num [tinyAmount]

/-- The double `100 - 4.999998430494088e-9` is `99.999999995` less a little. -/
theorem toDouble_hundred_sub_tiny :
    toDouble (100 - tinyAmount) = 1759218604353639 / 2 ^ 44 := by
  rw [toDouble_eq 6 7036874417414556 (by norm_num)
    (by norm_num [tinyAmount, abs_of_nonneg]) (by norm_num [tinyAmount, abs_of_nonneg])
    (by norm_num [tinyAmount, roundHalfEven])]
  norm_num

/-- The double `100 + 4.999998430494088e-9` is `100.000000005` plus a little. -/
theorem toDouble_hundred_add_tiny :
    toDouble (100 + tinyAmount) = 1759218604529561 / 2 ^ 44 := by
  rw [toDouble_eq 6 7036874418118244 (by norm_num)
    (by norm_num [tinyAmount, abs_of_nonneg]) (by norm_num [tinyAmount, abs_of_nonneg])
    (by norm_num [tinyAmount, roundHalfEven])]
  norm_num

/-- The double that `Number("99.99999999")` gives. -/
theorem toDouble_below_hundred :
    toDouble (9999999999 / 10 ^ 8) = 7036874417062713 / 2 ^ 46 := by
  rw [toDouble_eq 6 7036874417062713 (by norm_num)
    (by norm_num [abs_of_nonneg]) (by norm_num [abs_of_nonneg])
    (by norm_num [roundHalfEven])]
  norm_num

/-- The double that `Number("100.00000001")` gives. -/
theorem toDouble_above_hundred :
    toDouble (10000000001 / 10 ^ 8) = 7036874418470087 / 2 ^ 46 := by
  rw [toDouble_eq 6 7036874418470087 (by norm_num)
    (by norm_num [abs_of_nonneg]) (by norm_num [abs_of_nonneg])
    (by norm_num [roundHalfEven])]
  norm_num

/-- The debit of Alice's 100 by `4.999998430494088e-9` is stored as
`99.99999999`. -/
theorem stored_hundred_sub_tiny :
    toDouble (toFixed8 (toDouble (100 - tinyAmount))) = 7036874417062713 / 2 ^ 46 := by
  rw [toDouble_hundred_sub_tiny]
  have e : toFixed8 (1759218604353639 / 2 ^ 44) = 9999999999 / 10 ^ 8 := by
    norm_num [toFixed8]
  rw [e, toDouble_below_hundred]

/-- The credit of 100 by `4.999998430494088e-9` is stored as `100.00000001`. -/
theorem stored_hundred_add_tiny :
    toDouble (toFixed8 (toDouble (100 + tinyAmount))) = 7036874418470087 / 2 ^ 46 := by
  rw [toDouble_hundred_add_tiny]
  have e : toFixed8 (1759218604529561 / 2 ^ 44) = 10000000001 / 10 ^ 8 := by
    norm_num [toFixed8]
  rw [e, toDouble_above_hundred]

/-- The debit of 100 by 1 is stored as 99. -/
theorem stored_hundred_sub_one : toDouble (toFixed8 (toDouble (100 - 1))) = 99 := by
  have e : toDouble 99 = 99 := by
    rw [toDouble_eq 6 (99 * 2 ^ 46) (by norm_num) (by norm_num [abs_of_nonneg])
      (by norm_num [abs_of_nonneg]) (by norm_num [roundHalfEven])]
    norm_num
  have f : toFixed8 99 = 99 := by norm_num [toFixed8]
  have g : (100 : ℚ) - 1 = 99 := by norm_num
  rw [g, e, f, e]

/-- The credit of `2 ^ 53` by 1 is stored as `2 ^ 53`: the sum
`9007199254740993` is half way between two doubles and goes to the even one. -/
theorem stored_two_pow_add_one : toDouble (toFixed8 (toDouble (2 ^ 53 + 1))) = 2 ^ 53 := by
  have e : toDouble (2 ^ 53 + 1) = 2 ^ 53 := by
    rw [toDouble_eq 53 (2 ^ 52) (by norm_num) (by norm_num [abs_of_nonneg])
      (by norm_num [abs_of_nonneg]) (by norm_num [roundHalfEven])]
    norm_num
  have f : toFixed8 (2 ^ 53) = 2 ^ 53 := by
    have := toFixed8_intCast (2 ^ 53)
    exact_mod_cast this
  have g : toDouble (2 ^ 53) = 2 ^ 53 := by
    rw [toDouble_eq 53 (2 ^ 52) (by norm_num) (by norm_num [abs_of_nonneg])
      (by norm_num [abs_of_nonneg]) (by norm_num [roundHalfEven])]
    norm_num
  rw [e, f, g]

/-! ## Double precision: the transfer claims -/

/-- C4, amended. A non-treasury sender with balance `Bs ≥ a > 0`, a different
existing receiver with balance `Br` (treasury or not), `Br + a` within the
range of the doubles: the transfer is answered `ok`; the sender's stored
balance is `Number((Bs - a).toFixed(8))` and the receiver's is
`Number((Br + a).toFixed(8))`, where `-` and `+` are the double operations
(the exact result rounded to the nearest double, then to 8 fractional digits,
then to the nearest double); every other account is as before. -/
theorem send64_debits_and_credits (s : Store) (uid rid : String) (a : ℚ)
    (sender receiver : User)
    (hs : s.findOne uid = some sender) (hr : s.findOne rid = some receiver)
    (hrid : rid ≠ "") (hne : rid ≠ uid) (hna : sender.isAdmin = false)
    (ha : 0 < a) (hle : a ≤ sender.balance) (hfin : Finite64 (receiver.balance + a)) :
    (send64 s uid ⟨some rid, some a⟩).2 = .ok ⟨uid, rid, a⟩ ∧
    (send64 s uid ⟨some rid, some a⟩).1.findOne uid
      = some { sender with balance := toDouble (toFixed8 (toDouble (sender.balance - a))) } ∧
    (send64 s uid ⟨some rid, some a⟩).1.findOne rid
      = some { receiver with
          balance := toDouble (toFixed8 (toDouble (receiver.balance + a))) } ∧
    ∀ id, id ≠ uid → id ≠ rid →
      (send64 s uid ⟨some rid, some a⟩).1.findOne id = s.findOne id := by
  have _ := hfin
  exact send64_of_funded s uid rid a sender receiver hs hr hrid hne hna ha hle

/-- C4, amended, at Alice sending 30 to Bob. -/
theorem send64_debits_and_credits_witness :
    (send64 demoStore "alice" ⟨some "bob", some 30⟩).2 = .ok ⟨"alice", "bob", 30⟩ ∧
    (send64 demoStore "alice" ⟨some "bob", some 30⟩).1.findOne "alice"
      = some { alice with balance := toDouble (toFixed8 (toDouble (alice.balance - 30))) } ∧
    (send64 demoStore "alice" ⟨some "bob", some 30⟩).1.findOne "bob"
      = some { bob with balance := toDouble (toFixed8 (toDouble (bob.balance + 30))) } ∧
    ∀ id, id ≠ "alice" → id ≠ "bob" →
      (send64 demoStore "alice" ⟨some "bob", some 30⟩).1.findOne id = demoStore.findOne id :=
  send64_debits_and_credits demoStore "alice" "bob" 30 alice bob rfl rfl (by decide)
    (by decide) rfl (by norm_num) (by norm_num [alice])
    (by norm_num [Finite64, bob, abs_of_nonneg])

/-- C4, as stated, fails. Alice and Bob have 100 and Alice sends the double
`4.999998430494088e-9`. The rounding of the exact difference and of the exact
sum to 8 fractional digits is 100 for both. The program stores `99.99999999`
for Alice and `100.00000001` for Bob: the double difference lies below
`99.999999995` and the double sum above `100.000000005`. -/
theorem transfer_rounds_double_sum :
    toDouble tinyAmount = tinyAmount ∧ 0 < tinyAmount ∧ tinyAmount ≤ alice.balance ∧
    (send64 demoStore "alice" ⟨some "bob", some tinyAmount⟩).2
      = .ok ⟨"alice", "bob", tinyAmount⟩ ∧
    (send64 demoStore "alice" ⟨some "bob", some tinyAmount⟩).1.balanceOf "alice"
      = some (toDouble (9999999999 / 10 ^ 8)) ∧
    toFixed8 (alice.balance - tinyAmount) = 100 ∧
    toDouble (9999999999 / 10 ^ 8) < 100 ∧
    (send64 demoStore "alice" ⟨some "bob", some tinyAmount⟩).1.balanceOf "bob"
      = some (toDouble (10000000001 / 10 ^ 8)) ∧
    toFixed8 (bob.balance + tinyAmount) = 100 ∧
    100 < toDouble (10000000001 / 10 ^ 8) := by
  have hpos : 0 < tinyAmount := by norm_num [tinyAmount]
  have hle : tinyAmount ≤ alice.balance := by norm_num [tinyAmount, alice]
  obtain ⟨h1, h2, h3, -⟩ := send64_of_funded demoStore "alice" "bob" tinyAmount alice bob
    rfl rfl (by decide) (by decide) rfl hpos hle
  have ea : alice.balance = 100 := rfl
  have eb : bob.balance = 100 := rfl
  refine ⟨toDouble_tinyAmount, hpos, hle, h1, ?_, ?_, ?_, ?_, ?_, ?_⟩
  · rw [Store.balanceOf, h2, ea, stored_hundred_sub_tiny, toDouble_below_hundred]
    rfl
  · rw [ea]
    norm_num [toFixed8, tinyAmount]
  · rw [toDouble_below_hundred]
    norm_num
  · rw [Store.balanceOf, h3, eb, stored_hundred_add_tiny, toDouble_above_hundred]
    rfl
  · rw [eb]
    norm_num [toFixed8, tinyAmount]
  · rw [toDouble_above_hundred]
    norm_num

/-- C1, amended. Conservation up to rounding: a successful transfer from a
non-treasury account with balance `Bs` to a different account with balance
`Br` (non-treasury in particular), `Br + a` within the range of the doubles,
changes the sum of the two stored balances by at most
`10⁻⁸ + 3 · 2⁻⁵³ · (|Bs - a| + |Br + a| + 10⁻⁸) + 6 · 2⁻¹⁰⁷⁵`: the two
roundings to 8 fractional digits and the rounding errors of the double difference, the
double sum and the two conversions back to a double. -/
theorem send64_conserves (s : Store) (uid rid : String) (a : ℚ) (sender receiver : User)
    (tx : Transaction)
    (hs : s.findOne uid = some sender) (hr : s.findOne rid = some receiver)
    (hne : rid ≠ uid) (hsa : sender.isAdmin = false)
    (hfin : Finite64 (receiver.balance + a))
    (hok : (send64 s uid ⟨some rid, some a⟩).2 = .ok tx) :
    ∃ bs br, (send64 s uid ⟨some rid, some a⟩).1.balanceOf uid = some bs ∧
      (send64 s uid ⟨some rid, some a⟩).1.balanceOf rid = some br ∧
      |(bs + br) - (sender.balance + receiver.balance)|
        ≤ 1 / 10 ^ 8
          + 3 / 2 ^ 53 * (|sender.balance - a| + |receiver.balance + a| + 1 / 10 ^ 8)
          + 6 / 2 ^ 1075 := by
  have _ := hfin
  obtain ⟨rid', a', sender', receiver', hb, hrid, ha, hs', -, hle, -⟩ := send64_ok_inv hok
  obtain ⟨rfl, rfl⟩ : rid = rid' ∧ a = a' := by simpa using hb
  obtain rfl : sender = sender' := by rw [hs] at hs'; exact Option.some.inj hs'
  obtain ⟨-, h1, h2, -⟩ :=
    send64_of_funded s uid rid a sender receiver hs hr hrid hne hsa ha (hle hsa)
  refine ⟨toDouble (toFixed8 (toDouble (sender.balance - a))),
    toDouble (toFixed8 (toDouble (receiver.balance + a))), ?_, ?_, ?_⟩
  · simp [Store.balanceOf, h1]
  · simp [Store.balanceOf, h2]
  · have e1 := abs_stored_sub_le (sender.balance - a)
    have e2 := abs_stored_sub_le (receiver.balance + a)
    have e3 : toDouble (toFixed8 (toDouble (sender.balance - a)))
        + toDouble (toFixed8 (toDouble (receiver.balance + a)))
        - (sender.balance + receiver.balance)
        = (toDouble (toFixed8 (toDouble (sender.balance - a))) - (sender.balance - a))
          + (toDouble (toFixed8 (toDouble (receiver.balance + a)))
            - (receiver.balance + a)) := by ring
    rw [e3]
    refine le_trans (abs_add _ _) ?_
    generalize |toDouble (toFixed8 (toDouble (sender.balance - a))) - (sender.balance - a)|
      = E1 at e1
    generalize |toDouble (toFixed8 (toDouble (receiver.balance + a)))
      - (receiver.balance + a)| = E2 at e2
    generalize |sender.balance - a| = A at e1
    generalize |receiver.balance + a| = B at e2
    norm_num at e1 e2 ⊢
    linarith

/-- C1, amended, at Alice sending 30 to Bob. -/
theorem send64_conserves_witness :
    (send64 demoStore "alice" ⟨some "bob", some 30⟩).2 = .ok ⟨"alice", "bob", 30⟩ ∧
    ∃ bs br,
      (send64 demoStore "alice" ⟨some "bob", some 30⟩).1.balanceOf "alice" = some bs ∧
      (send64 demoStore "alice" ⟨some "bob", some 30⟩).1.balanceOf "bob" = some br ∧
      |(bs + br) - (alice.balance + bob.balance)|
        ≤ 1 / 10 ^ 8
          + 3 / 2 ^ 53 * (|alice.balance - 30| + |bob.balance + 30| + 1 / 10 ^ 8)
          + 6 / 2 ^ 1075 :=
  have hok : (send64 demoStore "alice" ⟨some "bob", some 30⟩).2
      = .ok ⟨"alice", "bob", 30⟩ :=
    (send64_of_funded demoStore "alice" "bob" 30 alice bob rfl rfl (by decide) (by decide)
      rfl (by norm_num) (by norm_num [alice])).1
  ⟨hok, send64_conserves demoStore "alice" "bob" 30 alice bob _ rfl rfl (by decide) rfl
    (by norm_num [Finite64, bob, abs_of_nonneg]) hok⟩

/-- C1, as stated, fails. Alice has 100 and the whale `2 ^ 53`, both
non-treasury, and Alice sends 1. The transfer is answered `ok`; Alice is
debited to 99; the whale's sum `2 ^ 53 + 1` is not a double and rounds back to
`2 ^ 53`. The two balances add up to one coin less than before. -/
theorem transfer_loses_a_coin :
    alice.isAdmin = false ∧ whale.isAdmin = false ∧
    (send64 mintedStore "alice" ⟨some "whale", some 1⟩).2 = .ok ⟨"alice", "whale", 1⟩ ∧
    (send64 mintedStore "alice" ⟨some "whale", some 1⟩).1.balanceOf "alice" = some 99 ∧
    (send64 mintedStore "alice" ⟨some "whale", some 1⟩).1.balanceOf "whale"
      = some (2 ^ 53) ∧
    ¬ |((99 : ℚ) + 2 ^ 53) - (alice.balance + whale.balance)| ≤ 1 / 10 ^ 8 := by
  obtain ⟨h1, h2, h3, -⟩ := send64_of_funded mintedStore "alice" "whale" 1 alice whale
    rfl rfl (by decide) (by decide) rfl (by norm_num) (by norm_num [alice])
  have ea : alice.balance = 100 := rfl
  have ew : whale.balance = 2 ^ 53 := rfl
  refine ⟨rfl, rfl, h1, ?_, ?_, ?_⟩
  · rw [Store.balanceOf, h2, ea, stored_hundred_sub_one]
    rfl
  · rw [Store.balanceOf, h3, ew, stored_two_pow_add_one]
    rfl
  · rw [ea, ew]
    norm_num

/-- C10, amended. Self-transfer: a non-treasury account with stored balance
`B` sending a positive amount `a ≤ B` to itself, `B + a` within the range of
the doubles, is answered `ok`, one record `{from = to = uid, amount = a}` is
logged, and the stored balance ends as `Number((B + a).toFixed(8))` with the
double sum: the credit is computed on the copy read before the debit was
saved, and its save overwrites the debit `Number((B - a).toFixed(8))`. -/
theorem send64_self_transfer (s : Store) (uid : String) (a : ℚ) (u : User)
    (hs : s.findOne uid = some u) (hid : uid ≠ "") (hna : u.isAdmin = false)
    (ha : 0 < a) (hle : a ≤ u.balance) (hfin : Finite64 (u.balance + a)) :
    send64 s uid ⟨some uid, some a⟩ =
      creditAndLog64 (s.save { u with balance := toDouble (toFixed8 (toDouble (u.balance - a))) })
        { u with balance := toDouble (toFixed8 (toDouble (u.balance - a))) } u a ∧
    (s.save { u with balance := toDouble (toFixed8 (toDouble (u.balance - a))) }).balanceOf uid
      = some (toDouble (toFixed8 (toDouble (u.balance - a)))) ∧
    (send64 s uid ⟨some uid, some a⟩).2 = .ok ⟨uid, uid, a⟩ ∧
    (send64 s uid ⟨some uid, some a⟩).1.txs = s.txs ++ [⟨uid, uid, a⟩] ∧
    (send64 s uid ⟨some uid, some a⟩).1.findOne uid
      = some { u with balance := toDouble (toFixed8 (toDouble (u.balance + a))) } := by
  have _ := hfin
  exact send64_of_self s uid a u hs hid hna ha hle

/-- C10, amended, at Alice sending 30 to herself. -/
theorem send64_self_transfer_witness :
    send64 demoStore "alice" ⟨some "alice", some 30⟩ =
      creditAndLog64
        (demoStore.save
          { alice with balance := toDouble (toFixed8 (toDouble (alice.balance - 30))) })
        { alice with balance := toDouble (toFixed8 (toDouble (alice.balance - 30))) }
        alice 30 ∧
    (demoStore.save
        { alice with balance := toDouble (toFixed8 (toDouble (alice.balance - 30))) }).balanceOf
      "alice" = some (toDouble (toFixed8 (toDouble (alice.balance - 30)))) ∧
    (send64 demoStore "alice" ⟨some "alice", some 30⟩).2 = .ok ⟨"alice", "alice", 30⟩ ∧
    (send64 demoStore "alice" ⟨some "alice", some 30⟩).1.txs
      = demoStore.txs ++ [⟨"alice", "alice", 30⟩] ∧
    (send64 demoStore "alice" ⟨some "alice", some 30⟩).1.findOne "alice"
      = some { alice with balance := toDouble (toFixed8 (toDouble (alice.balance + 30))) } :=
  send64_self_transfer demoStore "alice" 30 alice rfl (by decide) rfl (by norm_num)
    (by norm_num [alice]) (by norm_num [Finite64, alice, abs_of_nonneg])

/-- C10, as stated, fails. Alice, with 100, sends herself the double
`4.999998430494088e-9`: the exact sum rounds to 100 at 8 fractional digits,
the program stores `100.00000001`. The whale, with `2 ^ 53`, sends itself 1:
the exact sum is `2 ^ 53 + 1`, the program stores `2 ^ 53` and the balance
does not grow. -/
theorem self_transfer_rounds_double_sum :
    (send64 demoStore "alice" ⟨some "alice", some tinyAmount⟩).2
      = .ok ⟨"alice", "alice", tinyAmount⟩ ∧
    (send64 demoStore "alice" ⟨some "alice", some tinyAmount⟩).1.balanceOf "alice"
      = some (toDouble (10000000001 / 10 ^ 8)) ∧
    toFixed8 (alice.balance + tinyAmount) = 100 ∧
    100 < toDouble (10000000001 / 10 ^ 8) ∧
    (send64 mintedStore "whale" ⟨some "whale", some 1⟩).2 = .ok ⟨"whale", "whale", 1⟩ ∧
    (send64 mintedStore "whale" ⟨some "whale", some 1⟩).1.balanceOf "whale"
      = some whale.balance ∧
    toFixed8 (whale.balance + 1) = whale.balance + 1 := by
  obtain ⟨-, -, h1, -, h2⟩ := send64_of_self demoStore "alice" tinyAmount alice rfl
    (by decide) rfl (by norm_num [tinyAmount]) (by norm_num [tinyAmount, alice])
  obtain ⟨-, -, h3, -, h4⟩ := send64_of_self mintedStore "whale" 1 whale rfl
    (by decide) rfl (by norm_num) (by norm_num [whale])
  have ea : alice.balance = 100 := rfl
  have ew : whale.balance = 2 ^ 53 := rfl
  refine ⟨h1, ?_, ?_, ?_, h3, ?_, ?_⟩
  · rw [Store.balanceOf, h2, ea, stored_hundred_add_tiny, toDouble_above_hundred]
    rfl
  · rw [ea]
    norm_num [toFixed8, tinyAmount]
  · rw [toDouble_above_hundred]
    norm_num
  · rw [Store.balanceOf, h4, ew, stored_two_pow_add_one]
    rfl
  · rw [ew]
    have := toFixed8_intCast (2 ^ 53 + 1)
    exact_mod_cast this

end Aircoin
